import Mathlib

/-!
Verification development for the background job engine of gmaildigest-go:
cron evaluator (`internal/scheduler` cron code), scheduler core
(`internal/scheduler/scheduler.go`), job task adapter (`JobTask.OnSuccess`
/ `JobTask.OnFailure`), and the worker pool used by the Telegram service
(`internal/telegram/service.go`, second worker-pool variant).

Modelling conventions:
* Instants are `Nat` minutes since 0001-01-01T00:00 UTC in the proleptic
  Gregorian calendar (the cron evaluator works at minute resolution:
  `Next` truncates to the minute, so sub-minute offsets are irrelevant).
  The Go zero `time.Time{}` is instant `0`.
* Calendar field extraction mirrors Go `time.absDate` / `absWeekday`
  (day 0, i.e. 0001-01-01, is a Monday; weekday numbering has Sunday = 0).
* `map[int]bool` sets are modelled as `List Nat` used only through
  membership, which is what `CronSchedule.Next` observes.
* Fallible Go functions return `Option`/`Except`; a Go `panic` is an
  `Except.error`.
* `CronSchedule.Next` is an unbounded minute-by-minute loop in the source;
  it is modelled by the fuel-indexed `nextAux`/`nextf`, with `none`
  standing for "the loop has not found a match within the fuel".  One full
  Gregorian cycle of fuel (`cronPeriod` = 146097 days of minutes) is
  exhaustive: the calendar is periodic with that period, so the loop
  terminates iff it finds a match within one period.
-/

namespace GmailDigest

/-! ## Cron parsing (`ParseCron`, `parseCronField` in the scheduler package) -/

/-- Splitting of a character list at every separator matching `p`,
keeping empty segments: the semantics of Go `strings.Split` for a
one-character separator (with `p` an equality test) and the first stage of
Go `strings.Fields` (with `p` the whitespace test).  Defined structurally
so that it evaluates inside the kernel. -/
def splitWhen (p : Char → Bool) : List Char → List (List Char)
  | [] => [[]]
  | c :: cs =>
    if p c then [] :: splitWhen p cs
    else
      match splitWhen p cs with
      | [] => [[c]]
      | r :: rs => (c :: r) :: rs

/-- Go `strings.Split` on a single-character separator. -/
def splitOnChar (sep : Char) (cs : List Char) : List (List Char) :=
  splitWhen (fun c => c == sep) cs

/-- Go `strings.Fields`: maximal whitespace-free runs. -/
def fieldsOf (expr : String) : List (List Char) :=
  (splitWhen Char.isWhitespace expr.toList).filter (fun f => !f.isEmpty)

/-- Decimal digit run to a number; `none` when empty or non-digit. -/
def atoiCore (ds : List Char) : Option Nat :=
  if ds.isEmpty then none
  else if ds.all Char.isDigit then
    some (ds.foldl (fun acc c => acc * 10 + (c.toNat - 48)) 0)
  else none

/-- Model of Go `strconv.Atoi`: an optional sign followed by decimal digits.
Int64 overflow is ignored: a numeral large enough to overflow also exceeds
every cron field bound, so both the source and the model reject it. -/
def atoi : List Char → Option Int
  | '+' :: rest => (atoiCore rest).map Int.ofNat
  | '-' :: rest => (atoiCore rest).map (fun n => -(n : Int))
  | ds => (atoiCore ds).map Int.ofNat

/-- Inclusive range of naturals as a list. -/
def rangeList (lo hi : Nat) : List Nat :=
  (List.range (hi + 1 - lo)).map (fun i => lo + i)

/-- One comma-separated part of a cron field: either an `a-b` range (when the
part contains a dash) or a single value, each validated against `[lo, hi]`.
This is the loop body of `parseCronField`. -/
def parseCronPart (part : List Char) (lo hi : Nat) : Option (List Nat) :=
  if part.contains '-' then
    match splitOnChar '-' part with
    | [a, b] =>
      match atoi a, atoi b with
      | some s, some e =>
        if s > e || s < (lo : Int) || e > (hi : Int) then none
        else some (rangeList s.toNat e.toNat)
      | _, _ => none
    | _ => none
  else
    match atoi part with
    | some v => if v < (lo : Int) || v > (hi : Int) then none else some [v.toNat]
    | none => none

/-- `parseCronField` from the source: `*` gives the whole range, otherwise
the field is split on commas and each part parsed by `parseCronPart`. -/
def parseCronField (field : List Char) (lo hi : Nat) : Option (List Nat) :=
  if field == ['*'] then some (rangeList lo hi)
  else
    (splitOnChar ',' field).foldlM
      (fun acc part => (parseCronPart part lo hi).map (acc ++ ·)) []

/-- Parsed cron schedule: minute (0-59), hour (0-23), day of month (1-31),
month (1-12), weekday (0-6, Sunday = 0). -/
structure CronSchedule where
  minute : List Nat
  hour : List Nat
  day : List Nat
  month : List Nat
  weekday : List Nat
deriving DecidableEq, Repr

/-- `ParseCron` from the source: exactly five whitespace-separated fields
(Go `strings.Fields`), each parsed by `parseCronField` with its bounds. -/
def ParseCron (expr : String) : Option CronSchedule := do
  match fieldsOf expr with
  | [f0, f1, f2, f3, f4] =>
    let minute ← parseCronField f0 0 59
    let hour ← parseCronField f1 0 23
    let day ← parseCronField f2 1 31
    let month ← parseCronField f3 1 12
    let weekday ← parseCronField f4 0 6
    some { minute, hour, day, month, weekday }
  | _ => none

/-! ## Go UTC calendar (`time.absDate`, `time.absWeekday`) -/

/-- Go `isLeap`. -/
def isLeap (y : Nat) : Bool := y % 4 == 0 && (y % 100 != 0 || y % 400 == 0)

/-- Go `daysBefore` table: days in a non-leap year before month `m` (0-based
count of complete months). -/
def daysBefore (m : Nat) : Nat :=
  match m with
  | 0 => 0
  | 1 => 31
  | 2 => 59
  | 3 => 90
  | 4 => 120
  | 5 => 151
  | 6 => 181
  | 7 => 212
  | 8 => 243
  | 9 => 273
  | 10 => 304
  | 11 => 334
  | _ => 365

/-- The year and day-of-year of day `d` (days since 0001-01-01), following
Go `time.absDate` (400/100/4/1-year cycle splitting). -/
def yearYday (d : Nat) : Nat × Nat :=
  let n400 := d / 146097
  let d1 := d % 146097
  let n100 := d1 / 36524
  let n100 := n100 - n100 / 4
  let d2 := d1 - 36524 * n100
  let n4 := d2 / 1461
  let d3 := d2 % 1461
  let n1 := d3 / 365
  let n1 := n1 - n1 / 4
  let d4 := d3 - 365 * n1
  (400 * n400 + 100 * n100 + 4 * n4 + n1 + 1, d4)

/-- Month (1-12) and day of month from the leap flag and day-of-year,
following the tail of Go `time.absDate`. -/
def monthDay (leap : Bool) (yday : Nat) : Nat × Nat :=
  if leap && yday == 59 then (2, 29)
  else
    let day := if leap && yday > 59 then yday - 1 else yday
    let m0 := day / 31
    if day ≥ daysBefore (m0 + 1) then (m0 + 2, day - daysBefore (m0 + 1) + 1)
    else (m0 + 1, day - daysBefore m0 + 1)

/-- Full civil date (year, month, day) of day `d` since 0001-01-01. -/
def absDate (d : Nat) : Nat × Nat × Nat :=
  let yy := yearYday d
  let md := monthDay (isLeap yy.1) yy.2
  (yy.1, md.1, md.2)

def minuteOf (t : Nat) : Nat := t % 60

def hourOf (t : Nat) : Nat := t / 60 % 24

def dayNum (t : Nat) : Nat := t / 1440

/-- Weekday with Sunday = 0; day 0 (0001-01-01) is a Monday (Go `absWeekday`). -/
def weekdayOf (t : Nat) : Nat := (dayNum t + 1) % 7

def monthOf (t : Nat) : Nat := (absDate (dayNum t)).2.1

def domOf (t : Nat) : Nat := (absDate (dayNum t)).2.2

/-! ## `CronSchedule.Next` -/

/-- The match test of the `Next` loop body: all five fields of the candidate
minute belong to their sets, day-of-month AND day-of-week both required. -/
def matchesb (c : CronSchedule) (t : Nat) : Bool :=
  c.minute.contains (minuteOf t) && c.hour.contains (hourOf t) &&
  c.day.contains (domOf t) && c.month.contains (monthOf t) &&
  c.weekday.contains (weekdayOf t)

/-- Fuel-indexed minute-by-minute search starting at candidate `t`. -/
def nextAux (c : CronSchedule) : Nat → Nat → Option Nat
  | 0, _ => none
  | fuel + 1, t => if matchesb c t then some t else nextAux c fuel (t + 1)

/-- One full Gregorian cycle, in minutes: the calendar (and hence
`matchesb`) is periodic with this period. -/
def cronPeriod : Nat := 146097 * 1440

/-- `CronSchedule.Next`: first candidate is `after` advanced by one minute and
truncated to the minute (at minute resolution, `after + 1`). -/
def nextf (c : CronSchedule) (after : Nat) (fuel : Nat) : Option Nat :=
  nextAux c fuel (after + 1)

/-! ## Jobs and the scheduler core (`scheduler.go`, `JobTask` callbacks) -/

inductive JobStatus where
  | pending
  | running
  | completed
  | failed
  | dead
deriving DecidableEq, Repr

/-- The `Job` record (timestamps `created_at`/`updated_at` omitted: audit
only, read by no claim). `nextRun = 0` is the Go zero-time sentinel. -/
structure Job where
  id : String
  userId : String
  jobType : String
  schedule : String
  payload : String
  status : JobStatus
  retryCount : Nat
  lastError : String
  nextRun : Nat
  lastRun : Option Nat
deriving DecidableEq, Repr

/-- `Scheduler.nextRunTime`: on a cron parse error the error is swallowed
and `now + 1 hour` returned as a fallback; otherwise `cron.Next(now)`.
`none` models divergence of the `Next` loop (no match within one
Gregorian cycle, hence never). -/
def nextRunTime (schedule : String) (now : Nat) : Option Nat :=
  match ParseCron schedule with
  | none => some (now + 60)
  | some c => nextf c now cronPeriod

/-- `JobTask.OnSuccess` (authoritative callback adapter in the source):
completed status, cleared error, zero retries, rescheduled via
`nextRunTime`. -/
def OnSuccess (job : Job) (now : Nat) : Option Job :=
  (nextRunTime job.schedule now).map fun nr =>
    { job with status := JobStatus.completed, lastError := "", retryCount := 0, nextRun := nr }

/-- `JobTask.OnFailure` (authoritative callback adapter in the source):
failed status, recorded error, incremented retry count, quadratic backoff
capped at 24 h; from 5 retries on, the status is (re)set to
`JobStatusFailed` and `nextRun` to the zero sentinel. -/
def OnFailure (job : Job) (errMsg : String) (now : Nat) : Job :=
  let job := { job with
    status := JobStatus.failed
    lastError := errMsg
    retryCount := job.retryCount + 1 }
  let delay := job.retryCount * job.retryCount
  let delay := if delay > 1440 then 1440 else delay
  let job := { job with nextRun := now + delay }
  if job.retryCount ≥ 5 then { job with status := JobStatus.failed, nextRun := 0 }
  else job

/-- The selection test of `Scheduler.dispatchDueJobs`: a job is handed to the
worker pool only when `Status == JobStatusPending && !NextRun.After(now)`. -/
def dueForDispatch (job : Job) (now : Nat) : Bool :=
  job.status == JobStatus.pending && !(decide (now < job.nextRun))

/-- The deduplication key comparison of `Scheduler.ScheduleJob`. -/
def tripleMatches (j : Job) (userID jobType schedule : String) : Bool :=
  j.userId == userID && j.jobType == jobType && j.schedule == schedule

/-- `Scheduler.ScheduleJob` acting on the in-memory job set (a Go map from
id to job, modelled as a list with unique ids; the store mirrors the map
under the scheduler lock and its writes succeed, per the single-writer
discipline).  If a job with the same `(user, type, schedule)` triple
exists, its payload/status/retryCount/nextRun are overwritten in place
(same id); otherwise a job with the fresh id `freshId` (a UUID in the
source) is inserted.  Payload marshalling is the identity: callers pass
raw JSON.  The scan order of the Go map is arbitrary, but at most one job
matches the triple when the triples are pairwise distinct, so the
list order is immaterial under that invariant. -/
def ScheduleJob (jobs : List Job) (userID jobType schedule payload : String)
    (now : Nat) (freshId : String) : Option (List Job × Job) := do
  let nr ← nextRunTime schedule now
  match jobs.find? (fun j => tripleMatches j userID jobType schedule) with
  | some j =>
    let j := { j with
      payload := payload
      status := JobStatus.pending
      retryCount := 0
      nextRun := nr }
    some (jobs.map (fun x => if x.id == j.id then j else x), j)
  | none =>
    let job : Job := {
      id := freshId
      userId := userID
      jobType := jobType
      schedule := schedule
      payload := payload
      status := JobStatus.pending
      retryCount := 0
      lastError := ""
      nextRun := nr
      lastRun := none }
    some (jobs ++ [job], job)

/-- One `ScheduleJob` call's arguments. -/
structure Call where
  userID : String
  jobType : String
  schedule : String
  payload : String
  now : Nat
  freshId : String
deriving DecidableEq, Repr

/-- A sequence of `ScheduleJob` calls applied to the in-memory set.  A call
on which the source diverges inside `cron.Next` (modelled `none`) never
returns and so never changes the set. -/
def applyCalls (jobs : List Job) : List Call → List Job
  | [] => jobs
  | c :: cs =>
    match ScheduleJob jobs c.userID c.jobType c.schedule c.payload c.now c.freshId with
    | some (jobs', _) => applyCalls jobs' cs
    | none => applyCalls jobs cs

/-! ## Worker pool of the Telegram service (`service.go`, callback variant) -/

/-- Worker pool state: the buffered task channel is modelled by its length
`queueLen`, capacity `queueCap`, and closed flag (closing a closed Go
channel panics).  Tasks themselves are opaque to the pool. -/
structure WorkerPool where
  workers : Nat
  queueCap : Nat
  queueLen : Nat
  isStopped : Bool
  tasksClosed : Bool
deriving DecidableEq, Repr

/-- `NewWorkerPool`: a non-positive worker count is clamped to 1; the task
channel is allocated with capacity `workers*2` after clamping. -/
def NewWorkerPool (workers : Int) : WorkerPool :=
  let w : Nat := if workers ≤ 0 then 1 else workers.toNat
  { workers := w, queueCap := w * 2, queueLen := 0, isStopped := false, tasksClosed := false }

/-- `WorkerPool.Submit`: nil task or stopped pool give `false`; otherwise a
non-blocking channel send (select with default) succeeds exactly when the
buffer has room.  Never blocks. -/
def WorkerPool.Submit (p : WorkerPool) (taskIsNil : Bool) : WorkerPool × Bool :=
  if taskIsNil then (p, false)
  else if p.isStopped then (p, false)
  else if p.queueLen < p.queueCap then ({ p with queueLen := p.queueLen + 1 }, true)
  else (p, false)

/-- `WorkerPool.Stop`: sets `isStopped`, cancels the context (no modelled
state), then `close(p.tasks)` - which panics when the channel is already
closed, modelled as `Except.error`. -/
def WorkerPool.Stop (p : WorkerPool) : Except String WorkerPool :=
  let p := { p with isStopped := true }
  if p.tasksClosed then Except.error "close of closed channel"
  else Except.ok { p with tasksClosed := true }

/-! ## Statement-level definitions -/

/-- A pending job with the given retry count, used as a concrete input. -/
def sampleJob (rc : Nat) : Job :=
  { id := "j1", userId := "u1", jobType := "echo", schedule := "* * * * *",
    payload := "{}", status := JobStatus.pending, retryCount := rc,
    lastError := "", nextRun := 0, lastRun := none }

/-- The parse of `"0 0 30 2 *"`: midnight of February 30, a day that does
not exist in any year, so the `Next` loop can never find a match. -/
def feb30Sched : CronSchedule :=
  { minute := [0], hour := [0], day := [30], month := [2],
    weekday := [0, 1, 2, 3, 4, 5, 6] }

/-- The parse of `"0 0 * * 0"`: midnight on Sundays. -/
def sunMidnight : CronSchedule :=
  { minute := [0], hour := [0], day := rangeList 1 31, month := rangeList 1 12,
    weekday := [0] }

/-- The parse of `"0 0 1 1 *"`: midnight on January 1. -/
def jan1Sched : CronSchedule :=
  { minute := [0], hour := [0], day := [1], month := [1], weekday := rangeList 0 6 }

/-- Modelled from the spec grammar: an in-range integer (an optionally
signed decimal numeral, the integers Go `strconv.Atoi` accepts, with value
between `lo` and `hi`). -/
def intOK (s : List Char) (lo hi : Nat) : Bool :=
  match atoi s with
  | some v => decide ((lo : Int) ≤ v ∧ v ≤ (hi : Int))
  | none => false

/-- Modelled from the spec grammar (amended): a list element is either a
single in-range integer or an inclusive, non-reversed, in-range range
`a-b` with `a ≤ b` (a dash-containing part splitting into exactly two
integers `a` and `b` with `a ≤ b`, both in range). -/
def itemOK (part : List Char) (lo hi : Nat) : Bool :=
  if part.contains '-' then
    match splitOnChar '-' part with
    | [a, b] =>
      match atoi a, atoi b with
      | some s, some e => decide (s ≤ e ∧ (lo : Int) ≤ s ∧ e ≤ (hi : Int))
      | _, _ => false
    | _ => false
  else intOK part lo hi

/-- Modelled from the spec grammar (amended): a field is `*` or a
comma-separated list of items. -/
def fieldOK (field : List Char) (lo hi : Nat) : Bool :=
  field == ['*'] || (splitOnChar ',' field).all (fun part => itemOK part lo hi)

/-- Modelled from the spec grammar (amended): exactly five
whitespace-separated fields, each valid for its bounds. -/
def grammarOK (expr : String) : Bool :=
  match fieldsOf expr with
  | [f0, f1, f2, f3, f4] =>
    fieldOK f0 0 59 && fieldOK f1 0 23 && fieldOK f2 1 31 &&
    fieldOK f3 1 12 && fieldOK f4 0 6
  | _ => false

/-- The deduplication triple of a job. -/
def tripleOf (j : Job) : String × String × String :=
  (j.userId, j.jobType, j.schedule)

/-- Pairwise-distinct `(user_id, type, schedule)` triples. -/
def DistinctTriples (jobs : List Job) : Prop :=
  jobs.Pairwise fun a b => tripleOf a ≠ tripleOf b

/-- Pairwise-distinct job ids (the in-memory set is a Go map keyed by id). -/
def DistinctIds (jobs : List Job) : Prop :=
  (jobs.map Job.id).Nodup

/-- Freshness of the UUIDs supplied to a call sequence: pairwise distinct
and absent from the starting set. -/
def FreshCalls (jobs : List Job) (calls : List Call) : Prop :=
  (calls.map Call.freshId).Nodup ∧ ∀ c ∈ calls, c.freshId ∉ jobs.map Job.id

/-! ## C1 - dead-letter transition -/

/-- C1: the claim says that when `retry_count` reaches `MAX_RETRIES = 10`,
`OnFailure` sets `status = dead` and `next_run` to the zero sentinel.  The
source instead caps at 5 retries and (re)sets the status to
`JobStatusFailed`, never `JobStatusDead`: on the tenth failure the job has
`retry_count = 10`, `status = failed` (not `dead`) and the zero `next_run`
sentinel; already the fifth failure zeroes `next_run`.  This contradicts
the repository README ("jobs with `retry_count >= 10` and
`status = 'dead'") and the dead-letter test stub, so it is a slip in the
code rather than in the claim. -/
theorem C1_dead_letter_code_bug :
    ((OnFailure (sampleJob 9) "boom" 1000).retryCount = 10 ∧
     (OnFailure (sampleJob 9) "boom" 1000).status = JobStatus.failed ∧
     (OnFailure (sampleJob 9) "boom" 1000).status ≠ JobStatus.dead ∧
     (OnFailure (sampleJob 9) "boom" 1000).nextRun = 0) ∧
    ((OnFailure (sampleJob 4) "boom" 1000).retryCount = 5 ∧
     (OnFailure (sampleJob 4) "boom" 1000).status = JobStatus.failed ∧
     (OnFailure (sampleJob 4) "boom" 1000).nextRun = 0) := by
  decide

/-! ## C2 - retry then succeed -/

/-- C2: the claim says the scheduler re-dispatches a failed job after its
backoff delay.  `OnFailure` does set `retry_count`, `last_error`,
`status = failed` and `next_run = now + retry_count^2 minutes` as the claim
describes (after the second failure: `retry_count = 2`, `status = failed`,
`next_run = now + 4`), but `dispatchDueJobs` only ever selects jobs with
`status == pending`, so a failed job is never dispatched again: the
third, successful invocation of the claim's scenario never happens.  The
retry machinery (backoff `next_run` on a `failed` job) is unreachable by
dispatch, contradicting the repository's own retry design and test stubs. -/
theorem C2_no_redispatch_code_bug :
    ((OnFailure (sampleJob 0) "fail" 1000).retryCount = 1 ∧
     (OnFailure (sampleJob 0) "fail" 1000).status = JobStatus.failed ∧
     (OnFailure (sampleJob 0) "fail" 1000).lastError = "fail" ∧
     (OnFailure (sampleJob 0) "fail" 1000).nextRun = 1000 + 1) ∧
    ((OnFailure (OnFailure (sampleJob 0) "fail" 1000) "fail" 1200).retryCount = 2 ∧
     (OnFailure (OnFailure (sampleJob 0) "fail" 1000) "fail" 1200).status = JobStatus.failed ∧
     (OnFailure (OnFailure (sampleJob 0) "fail" 1000) "fail" 1200).nextRun = 1200 + 4) ∧
    (∀ now, dueForDispatch (OnFailure (sampleJob 0) "fail" 1000) now = false) := by
  refine ⟨by decide, by decide, fun now => ?_⟩
  simp [dueForDispatch, OnFailure, sampleJob]

/-! ## C8 - quadratic backoff -/

/-- C8: below the adapter's dead-letter cap (5 retries in the source),
`OnFailure` sets `next_run = now + min(retry_count^2 minutes, 24 h)` for the
incremented retry count, and across consecutive failures of the same job
the delay `next_run - now` is non-decreasing, with ties only possible at
the 24 h cap (below the cap the delays are in fact strictly increasing, so
no tie occurs). -/
theorem C8_backoff (job : Job) (e e' : String) (now now' : Nat)
    (h : job.retryCount + 1 < 5) :
    ((OnFailure job e now).nextRun =
      now + min ((job.retryCount + 1) * (job.retryCount + 1)) 1440) ∧
    (job.retryCount + 2 < 5 →
      ((OnFailure job e now).nextRun - now ≤
        (OnFailure (OnFailure job e now) e' now').nextRun - now') ∧
      ((OnFailure job e now).nextRun - now =
        (OnFailure (OnFailure job e now) e' now').nextRun - now' →
        (OnFailure job e now).nextRun - now = 1440)) := by
  rcases job with ⟨id, u, ty, s, p, st, rc, le, nr, lr⟩
  simp only [OnFailure] at *
  have hrc : rc < 4 := by omega
  interval_cases rc <;> simp

/-- Witness for C8 at a fresh job failing twice. -/
theorem C8_backoff_witness :
    ((OnFailure (sampleJob 0) "fail" 1000).nextRun = 1000 + min 1 1440) ∧
    (0 + 2 < 5 →
      ((OnFailure (sampleJob 0) "fail" 1000).nextRun - 1000 ≤
        (OnFailure (OnFailure (sampleJob 0) "fail" 1000) "fail" 1200).nextRun - 1200) ∧
      ((OnFailure (sampleJob 0) "fail" 1000).nextRun - 1000 =
        (OnFailure (OnFailure (sampleJob 0) "fail" 1000) "fail" 1200).nextRun - 1200 →
        (OnFailure (sampleJob 0) "fail" 1000).nextRun - 1000 = 1440)) := by
  have h := C8_backoff (sampleJob 0) "fail" "fail" 1000 1200 (by decide)
  simpa [sampleJob] using h

/-! ## C3 - cron parse errors from ScheduleJob -/

/-- C3 counterexample: `"not-a-cron"` fails to parse, yet `ScheduleJob`
returns no error - it creates the job, with the silent fallback
`next_run = now + 1 h` (`now = 100`, so 160). -/
theorem C3_counterexample :
    ParseCron "not-a-cron" = none ∧
    ScheduleJob [] "u1" "echo" "not-a-cron" "{}" 100 "id1" =
      some ([{ id := "id1", userId := "u1", jobType := "echo",
               schedule := "not-a-cron", payload := "{}",
               status := JobStatus.pending, retryCount := 0, lastError := "",
               nextRun := 160, lastRun := none }],
            { id := "id1", userId := "u1", jobType := "echo",
              schedule := "not-a-cron", payload := "{}",
              status := JobStatus.pending, retryCount := 0, lastError := "",
              nextRun := 160, lastRun := none }) := by
  decide

/-- C3 amended: when the cron expression fails to parse, `ScheduleJob` does
not surface the parse error; `nextRunTime` swallows it and falls back to
`now + 1 hour`, and the call succeeds, creating or updating the job with
that fallback `next_run`. -/
theorem C3_parse_error_fallback (jobs : List Job)
    (userID jobType schedule payload : String) (now : Nat) (freshId : String)
    (h : ParseCron schedule = none) :
    ∃ jobs' j, ScheduleJob jobs userID jobType schedule payload now freshId =
      some (jobs', j) ∧ j.nextRun = now + 60 := by
  unfold ScheduleJob nextRunTime
  rw [h]
  cases hf : jobs.find? (fun j => tripleMatches j userID jobType schedule) <;>
    simp only [Option.bind_eq_bind, Option.some_bind, hf] <;>
    exact ⟨_, _, rfl, rfl⟩

/-- Witness for C3 amended at a concrete bad expression. -/
theorem C3_parse_error_fallback_witness :
    ParseCron "every 5 minutes" = none ∧
    ∃ jobs' j, ScheduleJob [] "u2" "digest" "every 5 minutes" "{}" 7 "id9" =
      some (jobs', j) ∧ j.nextRun = 7 + 60 :=
  ⟨by decide,
   C3_parse_error_fallback [] "u2" "digest" "every 5 minutes" "{}" 7 "id9" (by decide)⟩

/-! ## C9 - worker pool stop/submit -/

/-- C9 counterexample: stopping a freshly built pool succeeds; stopping it a
second time runs `close` on an already-closed channel, a Go runtime panic -
so `stop` is not safe to call twice, contrary to the claim. -/
theorem C9_counterexample :
    (NewWorkerPool 1).Stop = Except.ok (WorkerPool.mk 1 2 0 true true) ∧
    (WorkerPool.mk 1 2 0 true true).Stop =
      Except.error "close of closed channel" :=
  ⟨rfl, rfl⟩

/-- C9 amended: `stop()` is not idempotent - a second call panics with
"close of closed channel".  What does hold: after a completed `stop()`,
every `submit(task)` returns `false`, and `submit` never blocks, returning
`false` whenever the task queue is full. -/
theorem C9_stop_submit (p p' : WorkerPool) (h : p.Stop = Except.ok p') :
    (∀ b, (p'.Submit b).2 = false) ∧
    (p'.Stop = Except.error "close of closed channel") ∧
    (∀ q : WorkerPool, ∀ b, q.queueCap ≤ q.queueLen → (q.Submit b).2 = false) := by
  have hp : p' = { p with isStopped := true, tasksClosed := true } := by
    unfold WorkerPool.Stop at h
    by_cases hc : p.tasksClosed <;> simp [hc] at h
    simp [← h]
  subst hp
  refine ⟨fun b => ?_, ?_, fun q b hq => ?_⟩
  · simp [WorkerPool.Submit]
  · simp [WorkerPool.Stop]
  · have hlt : ¬(q.queueLen < q.queueCap) := by omega
    cases b <;> by_cases hs : q.isStopped <;> simp [WorkerPool.Submit, hs, hlt]

/-- Witness for C9 amended at a concrete pool. -/
theorem C9_stop_submit_witness :
    (∀ b, ((WorkerPool.mk 2 4 0 true true).Submit b).2 = false) ∧
    ((WorkerPool.mk 2 4 0 true true).Stop =
      Except.error "close of closed channel") ∧
    (∀ q : WorkerPool, ∀ b, q.queueCap ≤ q.queueLen → (q.Submit b).2 = false) :=
  C9_stop_submit (NewWorkerPool 2) (WorkerPool.mk 2 4 0 true true) rfl

/-! ## C10 - worker pool construction -/

/-- C10: `NewWorkerPool` clamps a non-positive worker count to 1 (and never
fails), and for every worker count the task queue capacity is twice the
clamped worker count. -/
theorem C10_pool_construction :
    (∀ n : Int, n ≤ 0 → (NewWorkerPool n).workers = 1) ∧
    (∀ n : Int, (NewWorkerPool n).queueCap = 2 * (NewWorkerPool n).workers) := by
  constructor
  · intro n hn
    simp [NewWorkerPool, if_pos hn]
  · intro n
    unfold NewWorkerPool
    by_cases hn : n ≤ 0 <;> simp [hn]
    omega

/-- Witness for C10 at `workers = -3`. -/
theorem C10_pool_construction_witness :
    (NewWorkerPool (-3)).workers = 1 ∧
    (NewWorkerPool (-3)).queueCap = 2 * (NewWorkerPool (-3)).workers :=
  ⟨C10_pool_construction.1 (-3) (by decide), C10_pool_construction.2 (-3)⟩

/-! ## Search lemmas for the `Next` loop -/

/-- Soundness and minimality of the bounded search: a found instant is at or
after the start, matches, and nothing before it in the window matches. -/
theorem nextAux_some {c : CronSchedule} :
    ∀ fuel start r, nextAux c fuel start = some r →
      start ≤ r ∧ matchesb c r = true ∧
        ∀ u, start ≤ u → u < r → matchesb c u = false := by
  intro fuel
  induction fuel with
  | zero => intro start r h; simp [nextAux] at h
  | succ n ih =>
    intro start r h
    by_cases hm : matchesb c start
    · simp only [nextAux, hm, if_pos, Option.some.injEq] at h
      subst h
      exact ⟨le_refl _, hm, fun u h1 h2 => absurd h1 (by omega)⟩
    · simp only [nextAux, hm, if_neg, Bool.false_eq_true, if_false] at h
      obtain ⟨h1, h2, h3⟩ := ih (start + 1) r h
      refine ⟨by omega, h2, fun u hu1 hu2 => ?_⟩
      rcases Nat.eq_or_lt_of_le hu1 with heq | hlt
      · rw [← heq]; simpa using hm
      · exact h3 u (by omega) hu2

/-- Completeness of the bounded search: a match inside the window is found. -/
theorem nextAux_of_window {c : CronSchedule} :
    ∀ fuel start, (∃ k, k < fuel ∧ matchesb c (start + k) = true) →
      (nextAux c fuel start).isSome = true := by
  intro fuel
  induction fuel with
  | zero =>
    rintro start ⟨k, hk, _⟩
    omega
  | succ n ih =>
    rintro start ⟨k, hk, hm⟩
    by_cases h0 : matchesb c start
    · simp [nextAux, h0]
    · simp only [nextAux, h0, Bool.false_eq_true, if_false]
      apply ih
      have hk0 : k ≠ 0 := by
        intro h
        rw [h] at hm
        simp at hm
        exact h0 hm
      exact ⟨k - 1, by omega, by rw [show start + 1 + (k - 1) = start + k by omega]; exact hm⟩

/-- The bounded search returns exactly the first match of the window. -/
theorem nextAux_first {c : CronSchedule} :
    ∀ fuel start r, start ≤ r → r < start + fuel → matchesb c r = true →
      (∀ u, start ≤ u → u < r → matchesb c u = false) →
      nextAux c fuel start = some r := by
  intro fuel
  induction fuel with
  | zero => intro start r h1 h2 _ _; omega
  | succ n ih =>
    intro start r h1 h2 hm hmin
    rcases Nat.eq_or_lt_of_le h1 with heq | hlt
    · subst heq
      simp [nextAux, hm]
    · have h0 : matchesb c start = false := hmin start (le_refl _) hlt
      simp only [nextAux, h0, Bool.false_eq_true, if_false]
      exact ih (start + 1) r (by omega) (by omega) hm
        (fun u hu1 hu2 => hmin u (by omega) hu2)

/-- The bounded search fails when nothing in the window matches. -/
theorem nextAux_none {c : CronSchedule} :
    ∀ fuel start, (∀ u, start ≤ u → u < start + fuel → matchesb c u = false) →
      nextAux c fuel start = none := by
  intro fuel
  induction fuel with
  | zero => intro start _; rfl
  | succ n ih =>
    intro start h
    have h0 : matchesb c start = false := h start (le_refl _) (by omega)
    simp only [nextAux, h0, Bool.false_eq_true, if_false]
    exact ih (start + 1) (fun u hu1 hu2 => h u (by omega) (by omega))

/-! ## Periodicity of the Gregorian calendar -/

/-- Shifting by one full 400-year cycle adds 400 to the year and leaves the
day-of-year unchanged. -/
theorem yearYday_period (d : Nat) :
    yearYday (d + 146097) = ((yearYday d).1 + 400, (yearYday d).2) := by
  have h1 : (d + 146097) / 146097 = d / 146097 + 1 := by omega
  have h2 : (d + 146097) % 146097 = d % 146097 := by omega
  simp only [yearYday, h1, h2, Prod.mk.injEq]
  exact ⟨by ring, trivial⟩

/-- Leap years repeat with period 400. -/
theorem isLeap_add_400 (y : Nat) : isLeap (y + 400) = isLeap y := by
  have h4 : (y + 400) % 4 = y % 4 := by omega
  have h100 : (y + 400) % 100 = y % 100 := by omega
  have h400 : (y + 400) % 400 = y % 400 := by omega
  simp [isLeap, h4, h100, h400]

/-- Month and day of month repeat with period 146097 days. -/
theorem absDate_period (d : Nat) : (absDate (d + 146097)).2 = (absDate d).2 := by
  unfold absDate
  rw [yearYday_period]
  simp [isLeap_add_400]

/-
The shift lemmas below abstract the period as a variable `P` with the
hypothesis `P = cronPeriod`: putting the literal period next to a symbolic
instant would make kernel-side reduction attempts unfold `Nat.add` unarily.
-/

theorem dayNum_shift (t P : Nat) (hP : P = cronPeriod) :
    dayNum (t + P) = dayNum t + 146097 := by
  have h : P = 210379680 := by subst hP; rfl
  unfold dayNum
  omega

theorem minuteOf_shift (t P : Nat) (hP : P = cronPeriod) :
    minuteOf (t + P) = minuteOf t := by
  have h : P = 210379680 := by subst hP; rfl
  unfold minuteOf
  omega

theorem hourOf_shift (t P : Nat) (hP : P = cronPeriod) :
    hourOf (t + P) = hourOf t := by
  have h : P = 210379680 := by subst hP; rfl
  unfold hourOf
  omega

theorem weekdayOf_shift (t P : Nat) (hP : P = cronPeriod) :
    weekdayOf (t + P) = weekdayOf t := by
  unfold weekdayOf
  rw [dayNum_shift t P hP]
  omega

theorem monthOf_shift (t P : Nat) (hP : P = cronPeriod) :
    monthOf (t + P) = monthOf t := by
  show (absDate (dayNum (t + P))).2.1 = (absDate (dayNum t)).2.1
  rw [dayNum_shift t P hP]
  exact congrArg Prod.fst (absDate_period (dayNum t))

theorem domOf_shift (t P : Nat) (hP : P = cronPeriod) :
    domOf (t + P) = domOf t := by
  show (absDate (dayNum (t + P))).2.2 = (absDate (dayNum t)).2.2
  rw [dayNum_shift t P hP]
  exact congrArg Prod.snd (absDate_period (dayNum t))

/-- The match test is periodic with one full Gregorian cycle. -/
theorem matchesb_shift (c : CronSchedule) (t P : Nat) (hP : P = cronPeriod) :
    matchesb c (t + P) = matchesb c t := by
  unfold matchesb
  rw [minuteOf_shift t P hP, hourOf_shift t P hP, monthOf_shift t P hP,
    domOf_shift t P hP, weekdayOf_shift t P hP]

theorem matchesb_add_mul_shift (c : CronSchedule) (t P : Nat) (hP : P = cronPeriod) :
    ∀ n : Nat, matchesb c (t + n * P) = matchesb c t := by
  intro n
  induction n with
  | zero => simp
  | succ m ih =>
    rw [show t + (m + 1) * P = t + m * P + P by ring, matchesb_shift c (t + m * P) P hP, ih]

/-- Representation of any `u ≥ a` inside the first period-window after `a`. -/
theorem exists_window_rep (a u P : Nat) (hau : a ≤ u) :
    ∃ q, u = (a + (u - a) % P) + q * P := by
  refine ⟨(u - a) / P, ?_⟩
  have hdm := Nat.div_add_mod (u - a) P
  have hc : (u - a) / P * P = P * ((u - a) / P) := Nat.mul_comm _ _
  rw [hc]
  generalize hA : P * ((u - a) / P) = A at hdm ⊢
  generalize hB : (u - a) % P = B at hdm ⊢
  omega

/-! ## C7 - termination of `Next` -/

/-- C7 amended: for every schedule accepted by `parse` and every instant
`after` such that SOME instant strictly greater than `after` matches the
schedule, `next` terminates: the minute-by-minute search finds a match
within one full Gregorian cycle (146097 days) of fuel, because the match
test is periodic with that cycle.  (The unamended claim, termination for
every accepted schedule, is refuted by `"0 0 30 2 *"`.) -/
theorem C7_next_terminates (e : String) (c : CronSchedule)
    (_hp : ParseCron e = some c) (t u : Nat) (htu : t < u)
    (hm : matchesb c u = true) :
    ∃ r, nextf c t cronPeriod = some r := by
  have hPpos : 0 < cronPeriod := by norm_num [cronPeriod]
  have hwin : ∃ k, k < cronPeriod ∧ matchesb c (t + 1 + k) = true := by
    refine ⟨(u - (t + 1)) % cronPeriod, Nat.mod_lt _ hPpos, ?_⟩
    obtain ⟨q, hq⟩ := exists_window_rep (t + 1) u cronPeriod (by omega)
    rw [← matchesb_add_mul_shift c (t + 1 + (u - (t + 1)) % cronPeriod) cronPeriod rfl q,
      ← hq]
    exact hm
  have hs := nextAux_of_window cronPeriod (t + 1) hwin
  rcases Option.isSome_iff_exists.mp hs with ⟨r, hr⟩
  exact ⟨r, hr⟩

/-- Witness for C7 amended: `"0 0 1 1 *"` from 2024-01-02T00:00Z, with
2025-01-01T00:00Z as the matching instant. -/
theorem C7_next_terminates_witness :
    ∃ r, nextf jan1Sched 1063995840 cronPeriod = some r :=
  C7_next_terminates "0 0 1 1 *" jan1Sched (by decide) 1063995840 1064521440
    (by norm_num) (by decide)

set_option maxRecDepth 4000 in
/-- In no year does February have a 30th day: whatever the leap flag and
day-of-year, a day-of-year mapping to month 2 maps to a day at most 29. -/
theorem monthDay_ne_feb30 :
    ∀ yd < 366, ∀ l : Bool, (monthDay l yd).1 = 2 → (monthDay l yd).2 ≤ 29 := by
  decide

/-- The day-of-year produced by `yearYday` is at most 365. -/
theorem yday_lt_366 (d : Nat) : (yearYday d).2 < 366 := by
  simp only [yearYday]
  omega

/-- No instant at all matches the schedule of `"0 0 30 2 *"`. -/
theorem matchesb_feb30 (t : Nat) : matchesb feb30Sched t = false := by
  have hlt := yday_lt_366 (dayNum t)
  have h := monthDay_ne_feb30 (yearYday (dayNum t)).2 hlt (isLeap (yearYday (dayNum t)).1)
  have hmo : monthOf t = (monthDay (isLeap (yearYday (dayNum t)).1) (yearYday (dayNum t)).2).1 := rfl
  have hdo : domOf t = (monthDay (isLeap (yearYday (dayNum t)).1) (yearYday (dayNum t)).2).2 := rfl
  by_cases hm2 : monthOf t = 2
  · have hdm : domOf t ≠ 30 := by
      rw [hdo]
      rw [hmo] at hm2
      have h29 := h hm2
      omega
    unfold matchesb feb30Sched
    simp [hdm]
  · unfold matchesb feb30Sched
    simp [hm2]

/-- C7 counterexample: `"0 0 30 2 *"` is accepted by `parse`, yet `next`
never terminates on it - the search loop finds no match with any amount of
fuel, from any starting instant, because February 30 does not exist. -/
theorem C7_counterexample :
    ParseCron "0 0 30 2 *" = some feb30Sched ∧
    ∀ fuel t, nextf feb30Sched t fuel = none := by
  refine ⟨by decide, fun fuel t => ?_⟩
  unfold nextf
  exact nextAux_none fuel (t + 1) (fun u _ _ => matchesb_feb30 u)

/-! ## C5 - `Next` returns the least matching minute -/

/-- Between 2024-01-01T00:00Z (minute 1063994400, a Monday) and
2024-01-07T00:00Z (minute 1064003040) exclusive, no instant falls on a
Sunday, so nothing matches `"0 0 * * 0"`. -/
theorem sun_no_match (u : Nat) (h1 : 1063994400 < u) (h2 : u < 1064003040) :
    matchesb sunMidnight u = false := by
  have hw : weekdayOf u ≠ 0 := by
    unfold weekdayOf dayNum
    omega
  unfold matchesb sunMidnight
  simp [hw]

set_option maxRecDepth 4000 in
/-- No day from 2024-01-02 (day 738886) through 2024-12-31 (day 739250) is
a January 1. -/
theorem jan1_window_no_jan1 :
    ∀ k < 365, (absDate (738886 + k)).2.1 = 1 → (absDate (738886 + k)).2.2 ≠ 1 := by
  decide

/-- Between 2024-01-02T00:00Z and 2025-01-01T00:00Z exclusive, no instant
matches `"0 0 1 1 *"`. -/
theorem jan1_no_match (u : Nat) (h1 : 1063995840 < u) (h2 : u < 1064521440) :
    matchesb jan1Sched u = false := by
  have hd1 : 738886 ≤ dayNum u := by unfold dayNum; omega
  have hd2 : dayNum u < 739251 := by unfold dayNum; omega
  have h := jan1_window_no_jan1 (dayNum u - 738886) (by omega)
  rw [show 738886 + (dayNum u - 738886) = dayNum u by omega] at h
  by_cases hm : monthOf u = 1
  · have hdm : domOf u ≠ 1 := h hm
    unfold matchesb jan1Sched
    simp [hdm]
  · unfold matchesb jan1Sched
    simp [hm]

/-- `Next` on `"0 0 * * 0"` from 2024-01-01T00:00Z gives 2024-01-07T00:00Z. -/
theorem sun_next_eq :
    nextf sunMidnight 1063994400 cronPeriod = some 1064003040 := by
  unfold nextf
  apply nextAux_first cronPeriod (1063994400 + 1) 1064003040
  · norm_num
  · norm_num [cronPeriod]
  · decide
  · intro v hv1 hv2
    exact sun_no_match v (by omega) hv2

/-- `Next` on `"0 0 1 1 *"` from 2024-01-02T00:00Z gives 2025-01-01T00:00Z. -/
theorem jan1_next_eq :
    nextf jan1Sched 1063995840 cronPeriod = some 1064521440 := by
  unfold nextf
  apply nextAux_first cronPeriod (1063995840 + 1) 1064521440
  · norm_num
  · norm_num [cronPeriod]
  · decide
  · intro v hv1 hv2
    exact jan1_no_match v (by omega) hv2

/-- C5: whenever `next` terminates with result `r`, `r` is strictly greater
than `after`, each of its five calendar fields (minute, hour, day-of-month,
month, weekday - the last two combined with AND by `matchesb`) belongs to
the schedule's sets, and no strictly earlier instant past `after` matches:
`r` is the least matching instant, at minute resolution.  Hence `next`
strictly increases and iterating it is strictly increasing.  Concretely,
`next("0 0 * * 0", 2024-01-01T00:00Z) = 2024-01-07T00:00Z` (minutes
1063994400 and 1064003040 since 0001-01-01T00:00Z) and
`next("0 0 1 1 *", 2024-01-02T00:00Z) = 2025-01-01T00:00Z` (minutes
1063995840 and 1064521440). -/
theorem C5_next_semantics :
    (∀ (c : CronSchedule) (t fuel r : Nat), nextf c t fuel = some r →
      t < r ∧
      c.minute.contains (minuteOf r) = true ∧
      c.hour.contains (hourOf r) = true ∧
      c.day.contains (domOf r) = true ∧
      c.month.contains (monthOf r) = true ∧
      c.weekday.contains (weekdayOf r) = true ∧
      (∀ u, t < u → u < r → matchesb c u = false)) ∧
    (ParseCron "0 0 * * 0" = some sunMidnight ∧
      nextf sunMidnight 1063994400 cronPeriod = some 1064003040) ∧
    (ParseCron "0 0 1 1 *" = some jan1Sched ∧
      nextf jan1Sched 1063995840 cronPeriod = some 1064521440) := by
  refine ⟨?_, ⟨by decide, sun_next_eq⟩, ⟨by decide, jan1_next_eq⟩⟩
  intro c t fuel r h
  unfold nextf at h
  obtain ⟨h1, h2, h3⟩ := nextAux_some fuel (t + 1) r h
  have hm := h2
  unfold matchesb at hm
  simp only [Bool.and_eq_true] at hm
  obtain ⟨⟨⟨⟨hmin, hh⟩, hd⟩, hmo⟩, hw⟩ := hm
  exact ⟨by omega, hmin, hh, hd, hmo, hw, fun u hu1 hu2 => h3 u (by omega) hu2⟩

/-- Witness for C5 at the Sunday-midnight schedule and its concrete result. -/
theorem C5_next_semantics_witness :
    1063994400 < 1064003040 ∧
    sunMidnight.minute.contains (minuteOf 1064003040) = true ∧
    sunMidnight.hour.contains (hourOf 1064003040) = true ∧
    sunMidnight.day.contains (domOf 1064003040) = true ∧
    sunMidnight.month.contains (monthOf 1064003040) = true ∧
    sunMidnight.weekday.contains (weekdayOf 1064003040) = true := by
  have h := C5_next_semantics.1 sunMidnight 1063994400 cronPeriod 1064003040
    C5_next_semantics.2.1.2
  exact ⟨h.1, h.2.1, h.2.2.1, h.2.2.2.1, h.2.2.2.2.1, h.2.2.2.2.2.1⟩

/-! ## C6 - the accepted grammar -/

/-- Modelled from the claim as stated (before amendment): a lone in-range
non-reversed range `a-b`. -/
def rangeOK (part : List Char) (lo hi : Nat) : Bool :=
  match splitOnChar '-' part with
  | [a, b] =>
    match atoi a, atoi b with
    | some s, some e => decide (s ≤ e ∧ (lo : Int) ≤ s ∧ e ≤ (hi : Int))
    | _, _ => false
  | _ => false

/-- Modelled from the claim as stated (before amendment): a field is `*`, a
single in-range integer, a comma-separated list of in-range integers, or
one in-range non-reversed range `a-b` - list elements may NOT be ranges. -/
def fieldOKStrict (field : List Char) (lo hi : Nat) : Bool :=
  field == ['*'] ||
  intOK field lo hi ||
  (splitOnChar ',' field).all (fun part => intOK part lo hi) ||
  rangeOK field lo hi

/-- Modelled from the claim as stated (before amendment): five fields, each
of the strict shape. -/
def grammarOKStrict (expr : String) : Bool :=
  match fieldsOf expr with
  | [f0, f1, f2, f3, f4] =>
    fieldOKStrict f0 0 59 && fieldOKStrict f1 0 23 && fieldOKStrict f2 1 31 &&
    fieldOKStrict f3 1 12 && fieldOKStrict f4 0 6
  | _ => false

/-- A comma-separated part parses exactly when it is a valid item. -/
theorem parseCronPart_isSome (part : List Char) (lo hi : Nat) :
    (parseCronPart part lo hi).isSome = itemOK part lo hi := by
  unfold parseCronPart itemOK intOK
  by_cases hd : part.contains '-'
  · simp only [hd, if_true]
    rcases hsp : splitOnChar '-' part with _ | ⟨a, _ | ⟨b, _ | ⟨c, rest⟩⟩⟩ <;>
      simp only []
    · rfl
    · rfl
    · rcases ha : atoi a with _ | s <;> rcases hb : atoi b with _ | e <;> simp only []
      · rfl
      · rfl
      · rfl
      · by_cases hc : (decide (s > e) || decide (s < (lo : Int)) || decide (e > (hi : Int))) = true
        · rw [if_pos hc]
          simp only [decide_eq_true_eq, Bool.or_eq_true] at hc
          have hn : ¬(s ≤ e ∧ (lo : Int) ≤ s ∧ e ≤ (hi : Int)) := by
            rcases hc with (h | h) | h <;> omega
          simp [hn]
        · rw [if_neg hc]
          simp only [decide_eq_true_eq, Bool.or_eq_true, not_or, not_lt] at hc
          have hy : s ≤ e ∧ (lo : Int) ≤ s ∧ e ≤ (hi : Int) := by omega
          simp [hy]
    · rfl
  · simp only [hd, if_false, Bool.false_eq_true]
    rcases ha : atoi part with _ | v <;> simp only []
    · rfl
    · by_cases hc : (decide (v < (lo : Int)) || decide (v > (hi : Int))) = true
      · rw [if_pos hc]
        simp only [decide_eq_true_eq, Bool.or_eq_true] at hc
        have hn : ¬((lo : Int) ≤ v ∧ v ≤ (hi : Int)) := by
          rcases hc with h | h <;> omega
        simp [hn]
      · rw [if_neg hc]
        simp only [decide_eq_true_eq, Bool.or_eq_true, not_or, not_lt] at hc
        have hy : (lo : Int) ≤ v ∧ v ≤ (hi : Int) := by omega
        simp [hy]

/-- The accumulating fold over the comma-parts parses exactly when every
part is a valid item. -/
theorem foldlM_parts_isSome (lo hi : Nat) :
    ∀ (parts : List (List Char)) (acc : List Nat),
      (parts.foldlM (fun acc part => (parseCronPart part lo hi).map (acc ++ ·)) acc).isSome =
      parts.all (fun part => itemOK part lo hi) := by
  intro parts
  induction parts with
  | nil => intro acc; rfl
  | cons p ps ih =>
    intro acc
    simp only [List.foldlM_cons, List.all_cons]
    rcases hp : parseCronPart p lo hi with _ | val
    · have hfalse : itemOK p lo hi = false := by rw [← parseCronPart_isSome, hp]; rfl
      simp [hp, hfalse]
    · have htrue : itemOK p lo hi = true := by rw [← parseCronPart_isSome, hp]; rfl
      simp only [hp, Option.map_some, Option.some_bind, htrue, Bool.true_and]
      exact ih (acc ++ val)

/-- A field parses exactly when it satisfies the (amended) field grammar. -/
theorem parseCronField_isSome (field : List Char) (lo hi : Nat) :
    (parseCronField field lo hi).isSome = fieldOK field lo hi := by
  unfold parseCronField fieldOK
  by_cases hs : (field == ['*']) = true
  · simp [hs]
  · simp only [hs, if_false, Bool.false_or, Bool.false_eq_true]
    exact foldlM_parts_isSome lo hi (splitOnChar ',' field) []

/-- The full expression parses exactly when it satisfies the (amended)
grammar. -/
theorem ParseCron_isSome_eq_grammarOK (expr : String) :
    (ParseCron expr).isSome = grammarOK expr := by
  unfold ParseCron grammarOK
  rcases hf : fieldsOf expr with _ | ⟨f0, _ | ⟨f1, _ | ⟨f2, _ | ⟨f3, _ | ⟨f4, _ | ⟨f5, rest⟩⟩⟩⟩⟩⟩ <;>
    simp only [] <;> try rfl
  rcases h0 : parseCronField f0 0 59 with _ | v0 <;>
    simp only [h0, Option.none_bind, Option.some_bind, Option.isSome_none,
      ← parseCronField_isSome, Bool.false_and]
  · rfl
  rcases h1 : parseCronField f1 0 23 with _ | v1 <;>
    simp only [h1, Option.none_bind, Option.some_bind, Option.isSome_none,
      Option.isSome_some, Bool.true_and, Bool.false_and]
  · rfl
  rcases h2 : parseCronField f2 1 31 with _ | v2 <;>
    simp only [h2, Option.none_bind, Option.some_bind, Option.isSome_none,
      Option.isSome_some, Bool.true_and, Bool.false_and]
  · rfl
  rcases h3 : parseCronField f3 1 12 with _ | v3 <;>
    simp only [h3, Option.none_bind, Option.some_bind, Option.isSome_none,
      Option.isSome_some, Bool.true_and, Bool.false_and]
  · rfl
  rcases h4 : parseCronField f4 0 6 with _ | v4 <;>
    simp only [h4, Option.none_bind, Option.some_bind, Option.isSome_none,
      Option.isSome_some, Bool.true_and, Bool.false_and]
  · rfl
  rfl

/-- C6 counterexample: `"1-2,4-6 * * * *"` is accepted by `parse`, but its
first field is neither `*`, nor a single integer, nor a comma-separated
list of integers, nor a single range - it is a comma-separated list of
RANGES, outside the claimed grammar, so "ParseError exactly when outside
the grammar" fails at this input. -/
theorem C6_counterexample :
    (ParseCron "1-2,4-6 * * * *").isSome = true ∧
    grammarOKStrict "1-2,4-6 * * * *" = false := by
  constructor
  · decide
  · decide

/-- C6 amended: `parse(expr)` returns a ParseError exactly when `expr` is
not five whitespace-separated fields each of which is `*` or a
comma-separated list of elements, where each element is a single in-range
integer or an in-range non-reversed range `a-b` with `a ≤ b` (a single
integer or a single range being a one-element list; integers are the
optionally signed decimal numerals Go `strconv.Atoi` accepts).  In
particular step expressions such as `"*\/5 * * * *"` are rejected, while
`"* * * * *"`, `"0 9 * * 1-5"`, `"1,15,30 0,12 * * *"`, and
`"0 0 1 1 *"` are accepted. -/
theorem C6_parse_grammar :
    (∀ expr : String, (ParseCron expr).isSome = grammarOK expr) ∧
    ParseCron "*/5 * * * *" = none ∧
    (ParseCron "* * * * *").isSome = true ∧
    (ParseCron "0 9 * * 1-5").isSome = true ∧
    (ParseCron "1,15,30 0,12 * * *").isSome = true ∧
    (ParseCron "0 0 1 1 *").isSome = true :=
  ⟨ParseCron_isSome_eq_grammarOK, by decide, by decide, by decide, by decide, by decide⟩

/-! ## C4 - deduplication -/

/-- The Bool dedup test decodes to equality of triples. -/
theorem tripleMatches_iff (j : Job) (u ty sc : String) :
    tripleMatches j u ty sc = true ↔ tripleOf j = (u, ty, sc) := by
  simp [tripleMatches, tripleOf, Prod.ext_iff, and_assoc]

/-- `find?` returns the head of `filter`. -/
theorem find?_eq_head?_filter (q : Job → Bool) :
    ∀ l : List Job, l.find? q = (l.filter q).head? := by
  intro l
  induction l with
  | nil => rfl
  | cons a as ih =>
    by_cases h : q a = true
    · rw [List.find?_cons_of_pos _ h, List.filter_cons_of_pos h]
      rfl
    · rw [List.find?_cons_of_neg _ h, List.filter_cons_of_neg h, ih]

/-- Replacing the unique occurrence of `j0` in a duplicate-free list by a
match, when nothing else matches, leaves exactly the replacement in the
filtered list. -/
theorem filter_replace_eq {q : Job → Bool} {f : Job → Job} :
    ∀ (l : List Job) (j0 j' : Job), j0 ∈ l → l.Nodup →
      f j0 = j' → q j' = true →
      (∀ x ∈ l, x ≠ j0 → f x = x ∧ q x = false) →
      (l.map f).filter q = [j'] := by
  intro l
  induction l with
  | nil =>
    intro j0 j' h
    simp at h
  | cons y ys ih =>
    intro j0 j' hmem hnd hf hq hother
    rcases List.mem_cons.mp hmem with heq | hmem'
    · subst heq
      rw [List.map_cons, hf, List.filter_cons_of_pos hq]
      have hnil : (ys.map f).filter q = [] := by
        rw [List.filter_eq_nil_iff]
        intro a ha
        rcases List.mem_map.mp ha with ⟨x, hx, rfl⟩
        have hxne : x ≠ j0 := by
          intro hcon
          subst hcon
          exact (List.nodup_cons.mp hnd).1 hx
        rcases hother x (List.mem_cons_of_mem _ hx) hxne with ⟨hfx, hqx⟩
        rw [hfx, hqx]
        simp
      rw [hnil]
    · have hyne : y ≠ j0 := by
        intro hcon
        subst hcon
        exact (List.nodup_cons.mp hnd).1 hmem'
      rcases hother y (List.mem_cons_self _ _) hyne with ⟨hfy, hqy⟩
      rw [List.map_cons, hfy, List.filter_cons_of_neg (by simp [hqy])]
      exact ih j0 j' hmem' (List.nodup_cons.mp hnd).2 hf hq
        (fun x hx hxne => hother x (List.mem_cons_of_mem _ hx) hxne)

/-- Postcondition of the in-place update performed on the dedup hit: the
filtered set is exactly the updated job, both invariants survive, and the
ids are unchanged. -/
theorem update_path_post (q : Job → Bool) (jobs : List Job) (j0 jn : Job)
    (hd : DistinctTriples jobs) (hi : DistinctIds jobs)
    (hmem : j0 ∈ jobs) (hqn : q jn = true)
    (hid : jn.id = j0.id) (htr : tripleOf jn = tripleOf j0)
    (hqiff : ∀ x, q x = true ↔ tripleOf x = tripleOf j0) :
    ((jobs.map fun x => if x.id == j0.id then jn else x).filter q = [jn]) ∧
    DistinctTriples (jobs.map fun x => if x.id == j0.id then jn else x) ∧
    DistinctIds (jobs.map fun x => if x.id == j0.id then jn else x) ∧
    ((jobs.map fun x => if x.id == j0.id then jn else x).map Job.id = jobs.map Job.id) := by
  have hnd : jobs.Nodup := List.Nodup.of_map _ hi
  have hdp : jobs.Pairwise (fun a b => tripleOf a ≠ tripleOf b) := hd
  have hsym : Symmetric (fun a b : Job => tripleOf a ≠ tripleOf b) :=
    fun _ _ h hc => h hc.symm
  have hinj : ∀ x ∈ jobs, ∀ y ∈ jobs, x.id = y.id → x = y := fun x hx y hy hxy =>
    List.inj_on_of_nodup_map hi hx hy hxy
  have hfj0 : (fun x => if x.id == j0.id then jn else x) j0 = jn := by
    simp
  have hother : ∀ x ∈ jobs, x ≠ j0 →
      (fun x => if x.id == j0.id then jn else x) x = x ∧ q x = false := by
    intro x hx hne
    have hxid : x.id ≠ j0.id := fun hcon => hne (hinj x hx j0 hmem hcon)
    refine ⟨by simp [hxid], ?_⟩
    by_contra hq
    rw [Bool.not_eq_false] at hq
    have hxtr : tripleOf x = tripleOf j0 := (hqiff x).mp hq
    exact (List.Pairwise.forall hsym hdp hx hmem hne) hxtr
  have htrp : ∀ x ∈ jobs,
      tripleOf ((fun x => if x.id == j0.id then jn else x) x) = tripleOf x := by
    intro x hx
    by_cases hae : (x.id == j0.id) = true
    · have hxid : x.id = j0.id := beq_iff_eq.mp hae
      have hxj0 : x = j0 := hinj x hx j0 hmem hxid
      simp only [hae, if_true]
      rw [htr, hxj0]
    · simp [hae]
  have hids : ((jobs.map fun x => if x.id == j0.id then jn else x).map Job.id =
      jobs.map Job.id) := by
    rw [List.map_map]
    apply List.map_congr_left
    intro a _
    by_cases hae : (a.id == j0.id) = true
    · have haid : a.id = j0.id := beq_iff_eq.mp hae
      simp only [Function.comp_apply, hae, if_true]
      rw [hid, haid]
    · simp [Function.comp, hae]
  refine ⟨?_, ?_, ?_, hids⟩
  · exact filter_replace_eq jobs j0 jn hmem hnd hfj0 hqn hother
  · show (jobs.map fun x => if x.id == j0.id then jn else x).Pairwise
      (fun a b => tripleOf a ≠ tripleOf b)
    rw [List.pairwise_map]
    apply List.Pairwise.imp_of_mem ?_ hdp
    intro a b ha hb hab
    rw [htrp a ha, htrp b hb]
    exact hab
  · show ((jobs.map fun x => if x.id == j0.id then jn else x).map Job.id).Nodup
    rw [hids]
    exact hi

/-- Postcondition of one successful `ScheduleJob` call on a well-formed
in-memory set: the returned job carries the requested triple, the new
payload, zero retries and pending status; it is the unique triple match of
the resulting set; both distinctness invariants are preserved; ids grow by
at most the fresh id; and on the dedup-hit path the returned job keeps the
existing job's id. -/
theorem scheduleJob_post {jobs jobs' : List Job} {j : Job}
    {u ty sc p : String} {now : Nat} {fid : String}
    (h : ScheduleJob jobs u ty sc p now fid = some (jobs', j))
    (hd : DistinctTriples jobs) (hi : DistinctIds jobs)
    (hf : jobs.find? (fun x => tripleMatches x u ty sc) = none → fid ∉ jobs.map Job.id) :
    tripleOf j = (u, ty, sc) ∧
    j.payload = p ∧ j.retryCount = 0 ∧ j.status = JobStatus.pending ∧
    jobs'.filter (fun x => tripleMatches x u ty sc) = [j] ∧
    DistinctTriples jobs' ∧ DistinctIds jobs' ∧
    (∀ i, i ∈ jobs'.map Job.id → i ∈ jobs.map Job.id ∨ i = fid) ∧
    (∀ x, jobs.find? (fun xx => tripleMatches xx u ty sc) = some x → j.id = x.id) := by
  unfold ScheduleJob at h
  rcases hnr : nextRunTime sc now with _ | nr <;> rw [hnr] at h
  · simp at h
  simp only [Option.bind_eq_bind, Option.some_bind] at h
  rcases hfind : jobs.find? (fun x => tripleMatches x u ty sc) with _ | j0 <;>
    rw [hfind] at h <;> simp only [Option.some.injEq, Prod.mk.injEq] at h <;>
    obtain ⟨hjobs', hj⟩ := h
  · -- create path: no triple match, a fresh job is appended
    subst hj
    subst hjobs'
    have hnomatch : ∀ x ∈ jobs, tripleMatches x u ty sc = false := by
      intro x hx
      have := List.find?_eq_none.mp hfind x hx
      simpa using this
    have hfid : fid ∉ jobs.map Job.id := hf hfind
    refine ⟨rfl, rfl, rfl, rfl, ?_, ?_, ?_, ?_, ?_⟩
    · rw [List.filter_append,
        List.filter_eq_nil_iff.mpr (fun a ha => by simp [hnomatch a ha]),
        List.nil_append]
      simp [tripleMatches]
    · show (jobs ++ [_]).Pairwise (fun a b => tripleOf a ≠ tripleOf b)
      rw [List.pairwise_append]
      refine ⟨hd, List.pairwise_singleton _ _, ?_⟩
      intro a ha b hb
      rw [List.mem_singleton.mp hb]
      intro hcon
      have : tripleMatches a u ty sc = true := (tripleMatches_iff a u ty sc).mpr hcon
      rw [hnomatch a ha] at this
      exact Bool.false_ne_true this
    · show ((jobs ++ [_]).map Job.id).Nodup
      rw [List.map_append, List.nodup_append]
      refine ⟨hi, List.nodup_singleton _, ?_⟩
      intro a ha hb
      rw [List.mem_singleton.mp hb] at ha
      exact hfid ha
    · intro i hmem
      rw [List.map_append, List.mem_append] at hmem
      rcases hmem with hin | hin
      · exact Or.inl hin
      · exact Or.inr (List.mem_singleton.mp hin)
    · intro x habs
      exact Option.noConfusion habs
  · -- update path: dedup hit, the existing job is overwritten in place
    subst hj
    subst hjobs'
    have hj0mem : j0 ∈ jobs := List.mem_of_find?_eq_some hfind
    have hj0match : tripleMatches j0 u ty sc = true := by
      simpa using List.find?_some hfind
    have hj0triple : tripleOf j0 = (u, ty, sc) := (tripleMatches_iff j0 u ty sc).mp hj0match
    have hqiff : ∀ x, tripleMatches x u ty sc = true ↔ tripleOf x = tripleOf j0 := by
      intro x
      rw [tripleMatches_iff, hj0triple]
    obtain ⟨hfil, hdp', hip', hids⟩ :=
      update_path_post (fun x => tripleMatches x u ty sc) jobs j0
        { j0 with payload := p, status := JobStatus.pending, retryCount := 0, nextRun := nr }
        hd hi hj0mem ((hqiff _).mpr rfl) rfl rfl hqiff
    refine ⟨hj0triple, rfl, rfl, rfl, hfil, hdp', hip', ?_, ?_⟩
    · intro i hmem
      rw [hids] at hmem
      exact Or.inl hmem
    · intro x habs
      injection habs with hx
      rw [← hx]

/-- The distinctness invariants survive any sequence of `ScheduleJob` calls
made with fresh UUIDs, and every id of the resulting set comes from the
initial set or the supplied fresh ids. -/
theorem applyCalls_invariants :
    ∀ (calls : List Call) (jobs : List Job),
      DistinctTriples jobs → DistinctIds jobs → FreshCalls jobs calls →
      DistinctTriples (applyCalls jobs calls) ∧ DistinctIds (applyCalls jobs calls) ∧
      (∀ i, i ∈ (applyCalls jobs calls).map Job.id →
        i ∈ jobs.map Job.id ∨ i ∈ calls.map Call.freshId) := by
  intro calls
  induction calls with
  | nil =>
    intro jobs hd hi _
    exact ⟨hd, hi, fun i h => Or.inl h⟩
  | cons c cs ih =>
    intro jobs hd hi hfc
    obtain ⟨hnodup, hforall⟩ := hfc
    unfold applyCalls
    rcases hs : ScheduleJob jobs c.userID c.jobType c.schedule c.payload c.now c.freshId
      with _ | ⟨jobs', j⟩
    · obtain ⟨h1, h2, h3⟩ := ih jobs hd hi
        ⟨(List.nodup_cons.mp hnodup).2, fun c' hc' => hforall c' (List.mem_cons_of_mem _ hc')⟩
      exact ⟨h1, h2, fun i hmem => (h3 i hmem).imp id (List.mem_cons_of_mem _)⟩
    · have hffid : c.freshId ∉ jobs.map Job.id := hforall c (List.mem_cons_self _ _)
      obtain ⟨_, _, _, _, _, hd', hi', hsub, _⟩ := scheduleJob_post hs hd hi (fun _ => hffid)
      have hfc' : FreshCalls jobs' cs := by
        refine ⟨(List.nodup_cons.mp hnodup).2, ?_⟩
        intro c' hc' hmem
        rcases hsub c'.freshId hmem with hin | heq
        · exact hforall c' (List.mem_cons_of_mem _ hc') hin
        · have : c.freshId ∈ cs.map Call.freshId := by
            rw [← heq]
            exact List.mem_map_of_mem Call.freshId hc'
          exact (List.nodup_cons.mp hnodup).1 this
      obtain ⟨h1, h2, h3⟩ := ih jobs' hd' hi' hfc'
      refine ⟨h1, h2, fun i hmem => ?_⟩
      rcases h3 i hmem with hin | hx
      · rcases hsub i hin with hj | hfid
        · exact Or.inl hj
        · refine Or.inr ?_
          rw [hfid]
          exact List.mem_cons_self _ _
      · exact Or.inr (List.mem_cons_of_mem _ hx)

/-- C4: under the Go-map well-formedness of the in-memory set (pairwise
distinct ids) and freshness of the generated UUIDs, (1) every sequence of
`ScheduleJob` calls preserves pairwise-distinct `(user, type, schedule)`
triples, and (2) two consecutive calls with the same triple leave exactly
one job for that triple, carrying the second call's payload, `retry_count
= 0`, `status = pending`, and the id returned by the first call. -/
theorem C4_dedup_uniqueness :
    (∀ (jobs : List Job) (calls : List Call),
      DistinctTriples jobs → DistinctIds jobs → FreshCalls jobs calls →
      DistinctTriples (applyCalls jobs calls)) ∧
    (∀ (jobs jobs1 jobs2 : List Job) (j1 j2 : Job) (u ty sc p p1 : String)
      (now1 now2 : Nat) (id1 id2 : String),
      DistinctTriples jobs → DistinctIds jobs → id1 ∉ jobs.map Job.id →
      ScheduleJob jobs u ty sc p now1 id1 = some (jobs1, j1) →
      ScheduleJob jobs1 u ty sc p1 now2 id2 = some (jobs2, j2) →
      jobs2.filter (fun x => tripleMatches x u ty sc) = [j2] ∧
      j2.payload = p1 ∧ j2.retryCount = 0 ∧ j2.status = JobStatus.pending ∧
      j2.id = j1.id) := by
  constructor
  · intro jobs calls hd hi hfc
    exact (applyCalls_invariants calls jobs hd hi hfc).1
  · intro jobs jobs1 jobs2 j1 j2 u ty sc p p1 now1 now2 id1 id2 hd hi hf1 h1 h2
    obtain ⟨htr1, _, _, _, hfil1, hd1, hi1, _, _⟩ := scheduleJob_post h1 hd hi (fun _ => hf1)
    have hfind1 : jobs1.find? (fun x => tripleMatches x u ty sc) = some j1 := by
      rw [find?_eq_head?_filter, hfil1]
      rfl
    obtain ⟨_, hp2, hrc2, hst2, hfil2, _, _, _, hid2⟩ := scheduleJob_post h2 hd1 hi1
      (fun hnone => Option.noConfusion (hfind1.symm.trans hnone))
    exact ⟨hfil2, hp2, hrc2, hst2, hid2 j1 hfind1⟩

/-- Witness for C4: two `ScheduleJob` calls with the same triple (payloads
`"A"` then `"B"`) on the empty in-memory set. -/
theorem C4_dedup_uniqueness_witness :
    DistinctTriples (applyCalls []
      [Call.mk "u1" "echo" "* * * * *" "A" 0 "id1",
       Call.mk "u1" "echo" "* * * * *" "B" 0 "id2"]) ∧
    (List.filter (fun x => tripleMatches x "u1" "echo" "* * * * *")
        [{ id := "id1", userId := "u1", jobType := "echo", schedule := "* * * * *",
           payload := "B", status := JobStatus.pending, retryCount := 0, lastError := "",
           nextRun := 1, lastRun := none }] =
      [{ id := "id1", userId := "u1", jobType := "echo", schedule := "* * * * *",
         payload := "B", status := JobStatus.pending, retryCount := 0, lastError := "",
         nextRun := 1, lastRun := none }]) ∧
    ({ id := "id1", userId := "u1", jobType := "echo", schedule := "* * * * *",
       payload := "B", status := JobStatus.pending, retryCount := 0, lastError := "",
       nextRun := 1, lastRun := none } : Job).payload = "B" ∧
    ({ id := "id1", userId := "u1", jobType := "echo", schedule := "* * * * *",
       payload := "B", status := JobStatus.pending, retryCount := 0, lastError := "",
       nextRun := 1, lastRun := none } : Job).retryCount = 0 ∧
    ({ id := "id1", userId := "u1", jobType := "echo", schedule := "* * * * *",
       payload := "B", status := JobStatus.pending, retryCount := 0, lastError := "",
       nextRun := 1, lastRun := none } : Job).status = JobStatus.pending ∧
    ({ id := "id1", userId := "u1", jobType := "echo", schedule := "* * * * *",
       payload := "B", status := JobStatus.pending, retryCount := 0, lastError := "",
       nextRun := 1, lastRun := none } : Job).id =
      ({ id := "id1", userId := "u1", jobType := "echo", schedule := "* * * * *",
         payload := "A", status := JobStatus.pending, retryCount := 0, lastError := "",
         nextRun := 1, lastRun := none } : Job).id := by
  constructor
  · exact C4_dedup_uniqueness.1 []
      [Call.mk "u1" "echo" "* * * * *" "A" 0 "id1",
       Call.mk "u1" "echo" "* * * * *" "B" 0 "id2"]
      (by simp [DistinctTriples]) (by simp [DistinctIds]) ⟨by decide, by decide⟩
  · exact C4_dedup_uniqueness.2 []
      [{ id := "id1", userId := "u1", jobType := "echo", schedule := "* * * * *",
         payload := "A", status := JobStatus.pending, retryCount := 0, lastError := "",
         nextRun := 1, lastRun := none }]
      [{ id := "id1", userId := "u1", jobType := "echo", schedule := "* * * * *",
         payload := "B", status := JobStatus.pending, retryCount := 0, lastError := "",
         nextRun := 1, lastRun := none }]
      { id := "id1", userId := "u1", jobType := "echo", schedule := "* * * * *",
        payload := "A", status := JobStatus.pending, retryCount := 0, lastError := "",
        nextRun := 1, lastRun := none }
      { id := "id1", userId := "u1", jobType := "echo", schedule := "* * * * *",
        payload := "B", status := JobStatus.pending, retryCount := 0, lastError := "",
        nextRun := 1, lastRun := none }
      "u1" "echo" "* * * * *" "A" "B" 0 0 "id1" "id2"
      (by simp [DistinctTriples]) (by simp [DistinctIds]) (by decide) (by decide) (by decide)

end GmailDigest
